import Mathlib

/-!
Shallow embedding of the badminton rotation manager (`src/app.py`,
class `BadmintonManager`) together with proofs about its operations.

Python dicts are modelled as association lists (`List (K × V)`) with the
dict operations `aget` (lookup), `aset` (insert-or-overwrite, keeping the
position of an existing key), `aerase` (delete) and `aincr` (the
`d[k] = d.get(k, 0) + 1` idiom).  Python sets of names are modelled as
duplicate-free lists used only through membership.  `random.shuffle` is
modelled as an explicit oracle `sh : Nat → List String → List String`
(indexed by the court id being filled); theorems that depend on the
shuffled list being a rearrangement take the permutation property as a
hypothesis.  Python's stable `list.sort(key=...)` is modelled by a stable
insertion sort with the same total preorder: any two stable sorts agree
on every input, so this is observationally the same function.
`str.strip` and string comparison are modelled on the character list of
the string (Python compares strings by code points).
-/

namespace Badminton

/-! ### Association-list model of Python dicts -/

def aget {K V : Type} [DecidableEq K] (m : List (K × V)) (k : K) : Option V :=
  (m.find? (fun e => decide (e.1 = k))).map (fun e => e.2)

def agetD {K V : Type} [DecidableEq K] (m : List (K × V)) (k : K) (d : V) : V :=
  (aget m k).getD d

def aset {K V : Type} [DecidableEq K] : List (K × V) → K → V → List (K × V)
  | [], k, v => [(k, v)]
  | e :: rest, k, v => if e.1 = k then (k, v) :: rest else e :: aset rest k v

def aerase {K V : Type} [DecidableEq K] : List (K × V) → K → List (K × V)
  | [], _ => []
  | e :: rest, k => if e.1 = k then rest else e :: aerase rest k

def aincr {K : Type} [DecidableEq K] (m : List (K × Nat)) (k : K) : List (K × Nat) :=
  aset m k (agetD m k 0 + 1)

def vals_sum {K : Type} (m : List (K × Nat)) : Nat :=
  (m.map (fun e => e.2)).sum

/-! ### Strings: Python `str.strip` and code-point comparison -/

def pyStrip (s : String) : String :=
  ⟨((s.data.dropWhile Char.isWhitespace).reverse.dropWhile Char.isWhitespace).reverse⟩

def strLtAux : List Char → List Char → Bool
  | [], [] => false
  | [], _ :: _ => true
  | _ :: _, [] => false
  | a :: as, b :: bs =>
    if a.val < b.val then true else if b.val < a.val then false else strLtAux as bs

def strLt (a b : String) : Bool := strLtAux a.data b.data

/-- `tuple(sorted((a, b)))` on two strings. -/
def pkey (a b : String) : String × String :=
  if strLt b a then (b, a) else (a, b)

/-! ### Stable sort (model of Python's stable `list.sort`) -/

def insertSorted {α : Type} (le : α → α → Bool) (x : α) : List α → List α
  | [] => [x]
  | y :: ys => if le y x then y :: insertSorted le x ys else x :: y :: ys

def isort {α : Type} (le : α → α → Bool) (l : List α) : List α :=
  l.foldl (fun acc x => insertSorted le x acc) []

/-! ### Data model -/

/-- One row of `match_history`. -/
structure MatchRec where
  team1 : String
  team2 : String
  score : String
deriving DecidableEq, Repr

/-- The dict stored in `courts_status[cid]` for an occupied court. -/
structure CourtMatch where
  team1 : String × String
  team2 : String × String
  players : List String
deriving DecidableEq, Repr

/-- The state of `BadmintonManager`. -/
structure BM where
  players : List String
  courts_num : Nat
  play_counts : List (String × Nat)
  consecutive_rests : List (String × Nat)
  partner_history : List ((String × String) × Nat)
  opponent_history : List ((String × String) × Nat)
  match_history : List MatchRec
  courts_status : List (Nat × Option CourtMatch)
  busy_players : List String
deriving Repr

/-- `BadmintonManager.__init__` (with `_init_courts` for the default 2 courts). -/
def initBM : BM :=
  { players := []
    courts_num := 2
    play_counts := []
    consecutive_rests := []
    partner_history := []
    opponent_history := []
    match_history := []
    courts_status := [(1, none), (2, none)]
    busy_players := [] }

/-! ### Roster operations -/

/-- `BadmintonManager.add_player`. -/
def add_player (s : BM) (name : String) : BM × Bool × String :=
  let n := pyStrip name
  if n = "" then (s, false, "名字不能為空")
  else if n ∈ s.players then (s, false, n ++ " 已經在名單內了")
  else
    ({ s with
        players := s.players ++ [n]
        play_counts := aset s.play_counts n 0
        consecutive_rests := aset s.consecutive_rests n 0 },
      true, "已加入球員: " ++ n)

/-- `BadmintonManager.remove_player`. -/
def remove_player (s : BM) (name : String) : BM × Bool × String :=
  if name ∉ s.players then (s, false, "找不到此球員")
  else if name ∈ s.busy_players then
    (s, false, "⚠️ " ++ name ++ " 正在場上比賽中，請先結算該場比賽後再移除。")
  else
    ({ s with
        players := s.players.erase name
        consecutive_rests := aerase s.consecutive_rests name },
      true, "已將 " ++ name ++ " 移出名單 (歷史戰績保留)")

/-- `BadmintonManager.update_courts_num`. -/
def update_courts_num (s : BM) (num : Nat) : BM :=
  if num < 1 then s
  else
    let cs :=
      if s.courts_num < num then
        (List.range' (s.courts_num + 1) (num - s.courts_num)).foldl
          (fun m i => aset m i none) s.courts_status
      else s.courts_status
    { s with courts_status := cs, courts_num := num }

/-! ### Cost lookups and availability -/

/-- `BadmintonManager.get_pair_cost`. -/
def get_pair_cost (s : BM) (p1 p2 : String) : Nat :=
  agetD s.partner_history (pkey p1 p2) 0

/-- `BadmintonManager.get_opponent_cost`. -/
def get_opponent_cost (s : BM) (p1 p2 : String) : Nat :=
  agetD s.opponent_history (pkey p1 p2) 0

/-- `BadmintonManager.get_available_players`. -/
def get_available_players (s : BM) : List String :=
  s.players.filter (fun p => decide (p ∉ s.busy_players))

/-! ### Filling the courts -/

/-- A court id counts as empty when `courts_status.get(cid)` is `None`
(missing key or stored `None`). -/
def court_empty (s : BM) (cid : Nat) : Bool :=
  match aget s.courts_status cid with
  | some (some _) => false
  | _ => true

/-- The `empty_courts` list computed at the top of `fill_empty_courts`. -/
def empty_courts (s : BM) : List Nat :=
  (List.range' 1 s.courts_num).filter (court_empty s)

abbrev Combo := (String × String) × (String × String)

/-- The `combos` list: the three splits of four candidates into two teams. -/
def combos4 (a b c d : String) : List Combo :=
  [((a, b), (c, d)), ((a, c), (b, d)), ((a, d), (b, c))]

def combos_of (g : List String) : List Combo :=
  combos4 (g.getD 0 "") (g.getD 1 "") (g.getD 2 "") (g.getD 3 "")

/-- `total_cost = p_cost * 1000 + o_cost` for one split. -/
def combo_cost (s : BM) (c : Combo) : Nat :=
  (get_pair_cost s c.1.1 c.1.2 + get_pair_cost s c.2.1 c.2.2) * 1000 +
    (get_opponent_cost s c.1.1 c.2.1 + get_opponent_cost s c.1.1 c.2.2 +
      get_opponent_cost s c.1.2 c.2.1 + get_opponent_cost s c.1.2 c.2.2)

/-- The `best_combo`/`min_cost` selection loop (`min_cost` starts at
infinity, so the first combo always replaces the initial `none`). -/
def best_combo (s : BM) (cs : List Combo) : Option Combo :=
  (cs.foldl
      (fun acc c =>
        match acc with
        | none => some (c, combo_cost s c)
        | some (b, m) =>
          if combo_cost s c < m then some (c, combo_cost s c) else some (b, m))
      none).map (fun e => e.1)

/-- The sort key `(-consecutive_rests.get(x, 0), play_counts.get(x, 0))`,
as the total preorder used by the stable sort. -/
def sortLe (s : BM) (x y : String) : Bool :=
  decide (agetD s.consecutive_rests y 0 < agetD s.consecutive_rests x 0) ||
    (decide (agetD s.consecutive_rests x 0 = agetD s.consecutive_rests y 0) &&
      decide (agetD s.play_counts x 0 ≤ agetD s.play_counts y 0))

def skip_msg (cid n : Nat) : String :=
  "⚠️ 球場 " ++ toString cid ++ ": 剩餘人數不足 (" ++ toString n ++ "人)，暫時閒置。"

def ok_msg (cid : Nat) (bc : Combo) : String :=
  "✅ 球場 " ++ toString cid ++ ": " ++ bc.1.1 ++ "&" ++ bc.1.2 ++ " vs " ++
    bc.2.1 ++ "&" ++ bc.2.2

/-- Repeated `busy_players.add(p)` over a group. -/
def addAll (bs : List String) (g : List String) : List String :=
  g.foldl (fun bs p => if p ∈ bs then bs else bs ++ [p]) bs

/-- Repeated `play_counts[p] += 1` over a group. -/
def bump_counts (g : List String) (m : List (String × Nat)) :
    List (String × Nat) :=
  g.foldl (fun m p => aincr m p) m

/-- One iteration of the `for cid in empty_courts` loop. -/
def fill_court (sh : Nat → List String → List String) (s : BM) (cid : Nat) :
    BM × String :=
  let available := get_available_players s
  if available.length < 4 then
    (s, skip_msg cid available.length)
  else
    let g := (isort (sortLe s) (sh cid available)).take 4
    let bc := (best_combo s (combos_of g)).getD
      ((g.getD 0 "", g.getD 1 ""), (g.getD 2 "", g.getD 3 ""))
    ({ s with
        courts_status := aset s.courts_status cid (some ⟨bc.1, bc.2, g⟩)
        busy_players := addAll s.busy_players g
        play_counts := bump_counts g s.play_counts },
      ok_msg cid bc)

/-- The court loop of `fill_empty_courts`. -/
def fill_go (sh : Nat → List String → List String) :
    List Nat → BM → List String → BM × List String
  | [], s, logs => (s, logs)
  | cid :: rest, s, logs =>
    let r := fill_court sh s cid
    fill_go sh rest r.1 (logs ++ [r.2])

/-- The trailing `for p in self.players` loop updating `consecutive_rests`. -/
def rest_update (s : BM) : BM :=
  { s with
      consecutive_rests :=
        s.players.foldl
          (fun cr p =>
            aset cr p (if p ∈ s.busy_players then 0 else agetD cr p 0 + 1))
          s.consecutive_rests }

/-- `BadmintonManager.fill_empty_courts`, with the shuffle oracle `sh`. -/
def fill_empty_courts (sh : Nat → List String → List String) (s : BM) :
    BM × List String :=
  let empty := empty_courts s
  if empty.isEmpty then (s, ["沒有空場地需要填補。"])
  else
    let r := fill_go sh empty s []
    (rest_update r.1, r.2)

/-! ### Finishing a match -/

/-- `BadmintonManager.finish_match`. -/
def finish_match (s : BM) (court_id : Nat) (score_str : String) : BM × Bool :=
  match aget s.courts_status court_id with
  | some (some m) =>
    ({ s with
        match_history := s.match_history ++
          [⟨m.team1.1 ++ "&" ++ m.team1.2, m.team2.1 ++ "&" ++ m.team2.2,
            if score_str = "" then "無紀錄" else score_str⟩]
        partner_history :=
          aincr (aincr s.partner_history (pkey m.team1.1 m.team1.2))
            (pkey m.team2.1 m.team2.2)
        opponent_history :=
          [(m.team1.1, m.team2.1), (m.team1.1, m.team2.2),
            (m.team1.2, m.team2.1), (m.team1.2, m.team2.2)].foldl
            (fun oh pr => aincr oh (pkey pr.1 pr.2)) s.opponent_history
        busy_players := s.busy_players.filter (fun p => decide (p ∉ m.players))
        courts_status := aset s.courts_status court_id none },
      true)
  | _ => (s, false)

/-! ### Operation sequences -/

inductive Op where
  | register (name : String)
  | remove (name : String)
  | resize (num : Nat)
  | fill (sh : Nat → List String → List String)
  | finish (cid : Nat) (score : String)

def applyOp (s : BM) : Op → BM
  | .register n => (add_player s n).1
  | .remove n => (remove_player s n).1
  | .resize n => update_courts_num s n
  | .fill sh => (fill_empty_courts sh s).1
  | .finish cid sc => (finish_match s cid sc).1

def runOps (s : BM) (ops : List Op) : BM := ops.foldl applyOp s

/-- Number of slots that went from empty to occupied across a call. -/
def filled_count (s s' : BM) : Nat :=
  ((empty_courts s).filter (fun cid => !court_empty s' cid)).length

/-- The identity shuffle oracle (one admissible resolution of
`random.shuffle`). -/
def idSh : Nat → List String → List String := fun _ l => l

/-- A shuffle oracle that only rearranges its input, as `random.shuffle`
does. -/
def PermSh (sh : Nat → List String → List String) : Prop :=
  ∀ i l, (sh i l).Perm l

/-! Concrete scenario states used to instantiate the theorems below. -/

def demoRegs : List Op := ["a", "b", "c", "d", "e", "f", "g", "h"].map Op.register

/-- Eight registered players, both default courts filled. -/
def demoFilled : BM := runOps initBM (demoRegs ++ [Op.fill idSh])

/-- After shrinking to one court: court 2 is still running ("closing"). -/
def demoClosing : BM := runOps demoFilled [Op.resize 1]

/-- Growing back to two courts overwrites the closing court 2. -/
def demoWiped : BM := runOps demoClosing [Op.resize 2]

/-- Four registered players, no court filled yet. -/
def demoFour : BM := runOps initBM (["a", "b", "c", "d"].map Op.register)

/-- Two registered players: not enough to fill any court. -/
def demoPair : BM := runOps initBM (["a", "b"].map Op.register)

/-- A second round after one finished match: the partner history now makes
the cost search pick the second split, so court 1 holds teams `(a,c)` and
`(b,d)` while its stored player list is the sorted order `[a,b,c,d]` — an
interleaving of the concatenated teams. -/
def demoSecondSplit : BM :=
  runOps demoFour [Op.fill idSh, Op.finish 1 "", Op.fill idSh]

/-! ### Lemmas about the dictionary model -/

theorem aget_aset_self {K V : Type} [DecidableEq K] (m : List (K × V)) (k : K) (v : V) :
    aget (aset m k v) k = some v := by
  induction m with
  | nil => simp [aset, aget]
  | cons e rest ih =>
    by_cases h : e.1 = k
    · simp [aset, h, aget]
    · simp [aset, h, aget, List.find?]
      simpa [aget] using ih

theorem aget_aset_ne {K V : Type} [DecidableEq K] (m : List (K × V)) (k k' : K) (v : V)
    (h : k' ≠ k) : aget (aset m k v) k' = aget m k' := by
  induction m with
  | nil =>
    have h1 : ¬(k = k') := Ne.symm h
    simp [aset, aget, List.find?, h1]
  | cons e rest ih =>
    by_cases he : e.1 = k
    · have h1 : ¬(k = k') := Ne.symm h
      have h2 : ¬(e.1 = k') := by rw [he]; exact Ne.symm h
      simp [aset, he, aget, List.find?, h1, h2]
    · by_cases he' : e.1 = k'
      · simp only [aset, if_neg he]
        simp [aget, List.find?, he']
      · simp only [aset, if_neg he]
        simp only [aget, List.find?] at ih ⊢
        simp [he', ih]

theorem agetD_aset_self {K V : Type} [DecidableEq K] (m : List (K × V)) (k : K) (v d : V) :
    agetD (aset m k v) k d = v := by
  simp [agetD, aget_aset_self]

theorem agetD_aset_ne {K V : Type} [DecidableEq K] (m : List (K × V)) (k k' : K) (v d : V)
    (h : k' ≠ k) : agetD (aset m k v) k' d = agetD m k' d := by
  simp [agetD, aget_aset_ne m k k' v h]

theorem agetD_aincr {K : Type} [DecidableEq K] (m : List (K × Nat)) (k k' : K) :
    agetD (aincr m k) k' 0 = agetD m k' 0 + (if k' = k then 1 else 0) := by
  by_cases h : k' = k
  · subst h; simp [aincr, agetD_aset_self]
  · simp [aincr, agetD_aset_ne m k k' _ _ h, h]

theorem vals_sum_aincr {K : Type} [DecidableEq K] (m : List (K × Nat)) (k : K) :
    vals_sum (aincr m k) = vals_sum m + 1 := by
  unfold aincr
  induction m with
  | nil => simp [aset, agetD, aget, vals_sum]
  | cons e rest ih =>
    by_cases h : e.1 = k
    · have hg : agetD (e :: rest) k 0 = e.2 := by
        simp [agetD, aget, List.find?, h]
      simp only [aset, if_pos h, hg, vals_sum, List.map_cons, List.sum_cons]
      omega
    · have hg : agetD (e :: rest) k 0 = agetD rest k 0 := by
        simp [agetD, aget, List.find?, h]
      simp only [aset, if_neg h, hg, vals_sum, List.map_cons, List.sum_cons]
      simp only [vals_sum] at ih
      rw [ih]
      omega

theorem agetD_bump {K : Type} [DecidableEq K] (ks : List K) (m : List (K × Nat)) (p : K) :
    agetD (ks.foldl (fun m k => aincr m k) m) p 0 = agetD m p 0 + ks.count p := by
  induction ks generalizing m with
  | nil => simp
  | cons k rest ih =>
    simp only [List.foldl_cons, ih (aincr m k), agetD_aincr, List.count_cons]
    by_cases h : p = k
    · simp [h]; omega
    · simp [h, Ne.symm h]

theorem vals_sum_bump {K : Type} [DecidableEq K] (ks : List K) (m : List (K × Nat)) :
    vals_sum (ks.foldl (fun m k => aincr m k) m) = vals_sum m + ks.length := by
  induction ks generalizing m with
  | nil => simp
  | cons k rest ih =>
    simp only [List.foldl_cons, ih (aincr m k), vals_sum_aincr, List.length_cons]
    omega

theorem mem_addAll (bs g : List String) (p : String) :
    p ∈ addAll bs g ↔ p ∈ bs ∨ p ∈ g := by
  induction g generalizing bs with
  | nil => simp [addAll]
  | cons q rest ih =>
    simp only [addAll, List.foldl_cons] at ih ⊢
    by_cases h : q ∈ bs
    · simp only [h, if_true, ih]
      constructor
      · rintro (hb | hr)
        · exact Or.inl hb
        · exact Or.inr (List.mem_cons_of_mem _ hr)
      · rintro (hb | hqr)
        · exact Or.inl hb
        · rcases List.mem_cons.mp hqr with rfl | hr
          · exact Or.inl h
          · exact Or.inr hr
    · simp only [h, if_false, ih, List.mem_append, List.mem_singleton, List.mem_cons]
      tauto

/-! ### Lemmas about the stable sort -/

theorem insertSorted_perm {α : Type} (le : α → α → Bool) (x : α) (l : List α) :
    (insertSorted le x l).Perm (x :: l) := by
  induction l with
  | nil => simp [insertSorted]
  | cons y ys ih =>
    simp only [insertSorted]
    by_cases h : le y x
    · simp only [h, if_true]
      exact ((ih.cons y).trans (List.Perm.swap x y ys)).symm.symm
    · simp [h]

theorem isort_aux_perm {α : Type} (le : α → α → Bool) (l acc : List α) :
    (l.foldl (fun acc x => insertSorted le x acc) acc).Perm (acc ++ l) := by
  induction l generalizing acc with
  | nil => simp
  | cons x xs ih =>
    simp only [List.foldl_cons]
    refine (ih (insertSorted le x acc)).trans ?_
    refine (((insertSorted_perm le x acc).append_right xs).trans ?_)
    exact (List.perm_middle).symm

theorem isort_perm {α : Type} (le : α → α → Bool) (l : List α) :
    (isort le l).Perm l := by
  simpa using isort_aux_perm le l []

/-! ### Lemmas about sorted pair keys -/

theorem pkey_cases (a b : String) : pkey a b = (a, b) ∨ pkey a b = (b, a) := by
  unfold pkey
  by_cases h : strLt b a
  · simp [h]
  · simp [h]

theorem pkey_eq_imp {a b c d : String} (h : pkey a b = pkey c d) :
    (a = c ∧ b = d) ∨ (a = d ∧ b = c) := by
  rcases pkey_cases a b with h1 | h1 <;> rcases pkey_cases c d with h2 | h2 <;>
    rw [h1, h2] at h <;>
    simp only [Prod.mk.injEq] at h <;> tauto

theorem pkey_ne {x y u v : String} (h : ¬((x = u ∧ y = v) ∨ (x = v ∧ y = u))) :
    pkey x y ≠ pkey u v := fun he => h (pkey_eq_imp he)

theorem court_empty_true_of_eq (s : BM) (cid : Nat)
    (h : aget s.courts_status cid = some none) : court_empty s cid = true := by
  unfold court_empty
  rw [h]

/-! ### Lemmas about one court-filling step -/

theorem fill_court_frame (sh : Nat → List String → List String) (s : BM) (cid : Nat) :
    (fill_court sh s cid).1.players = s.players ∧
    (fill_court sh s cid).1.courts_num = s.courts_num ∧
    (fill_court sh s cid).1.consecutive_rests = s.consecutive_rests ∧
    (fill_court sh s cid).1.partner_history = s.partner_history ∧
    (fill_court sh s cid).1.opponent_history = s.opponent_history ∧
    (fill_court sh s cid).1.match_history = s.match_history := by
  unfold fill_court
  by_cases h : (get_available_players s).length < 4 <;> simp [h]

theorem fill_court_skip (sh : Nat → List String → List String) (s : BM) (cid : Nat)
    (h : (get_available_players s).length < 4) :
    fill_court sh s cid = (s, skip_msg cid (get_available_players s).length) := by
  unfold fill_court
  simp [h]

theorem group_spec (sh : Nat → List String → List String) (s : BM) (cid : Nat)
    (hnd : s.players.Nodup) (hsh : PermSh sh)
    (h : 4 ≤ (get_available_players s).length) (g : List String)
    (hg : g = (isort (sortLe s) (sh cid (get_available_players s))).take 4) :
    g.length = 4 ∧ g.Nodup ∧ ∀ p ∈ g, p ∈ s.players ∧ p ∉ s.busy_players := by
  have hperm : (isort (sortLe s) (sh cid (get_available_players s))).Perm
      (get_available_players s) :=
    (isort_perm _ _).trans (hsh cid _)
  refine ⟨?_, ?_, ?_⟩
  · rw [hg, List.length_take, hperm.length_eq]
    omega
  · have hnd2 : (get_available_players s).Nodup := hnd.filter _
    have hnd3 := hperm.nodup_iff.mpr hnd2
    rw [hg]
    exact (List.take_sublist _ _).nodup hnd3
  · intro p hp
    rw [hg] at hp
    have hps : p ∈ get_available_players s :=
      hperm.mem_iff.mp (List.mem_of_mem_take hp)
    have hmf := List.mem_filter.mp hps
    exact ⟨hmf.1, by simpa using hmf.2⟩

theorem fill_court_state (sh : Nat → List String → List String) (s : BM) (cid : Nat)
    (hnd : s.players.Nodup) (hsh : PermSh sh) :
    (fill_court sh s cid).1 = s ∨
    ∃ (g : List String) (bc : Combo),
      g.length = 4 ∧ g.Nodup ∧ (∀ p ∈ g, p ∈ s.players ∧ p ∉ s.busy_players) ∧
      (fill_court sh s cid).1 =
        { s with
            courts_status := aset s.courts_status cid (some ⟨bc.1, bc.2, g⟩)
            busy_players := addAll s.busy_players g
            play_counts := bump_counts g s.play_counts } := by
  by_cases h : (get_available_players s).length < 4
  · left
    rw [fill_court_skip sh s cid h]
  · right
    have hg := group_spec sh s cid hnd hsh (by omega)
      ((isort (sortLe s) (sh cid (get_available_players s))).take 4) rfl
    refine ⟨(isort (sortLe s) (sh cid (get_available_players s))).take 4,
      (best_combo s (combos_of
          ((isort (sortLe s) (sh cid (get_available_players s))).take 4))).getD
        ((((isort (sortLe s) (sh cid (get_available_players s))).take 4).getD 0 "",
          ((isort (sortLe s) (sh cid (get_available_players s))).take 4).getD 1 ""),
          (((isort (sortLe s) (sh cid (get_available_players s))).take 4).getD 2 "",
          ((isort (sortLe s) (sh cid (get_available_players s))).take 4).getD 3 "")),
      hg.1, hg.2.1, hg.2.2, ?_⟩
    unfold fill_court
    simp [h]

theorem fill_court_busy_mono (sh : Nat → List String → List String) (s : BM)
    (cid : Nat) (p : String) (hp : p ∈ s.busy_players) :
    p ∈ (fill_court sh s cid).1.busy_players := by
  unfold fill_court
  by_cases h : (get_available_players s).length < 4
  · simpa [h]
  · simp only [h, if_false]
    exact (mem_addAll _ _ p).mpr (Or.inl hp)

theorem fill_court_status_ne (sh : Nat → List String → List String) (s : BM)
    (cid c : Nat) (hne : c ≠ cid) :
    aget (fill_court sh s cid).1.courts_status c = aget s.courts_status c := by
  unfold fill_court
  by_cases h : (get_available_players s).length < 4
  · simp [h]
  · simp only [h, if_false]
    exact aget_aset_ne _ _ _ _ hne

/-! ### Lemmas about the court loop -/

theorem fill_go_frame (sh : Nat → List String → List String) (cids : List Nat)
    (s : BM) (logs : List String) :
    (fill_go sh cids s logs).1.players = s.players ∧
    (fill_go sh cids s logs).1.courts_num = s.courts_num ∧
    (fill_go sh cids s logs).1.consecutive_rests = s.consecutive_rests ∧
    (fill_go sh cids s logs).1.partner_history = s.partner_history ∧
    (fill_go sh cids s logs).1.opponent_history = s.opponent_history ∧
    (fill_go sh cids s logs).1.match_history = s.match_history := by
  induction cids generalizing s logs with
  | nil => simp [fill_go]
  | cons cid rest ih =>
    simp only [fill_go]
    have hf := fill_court_frame sh s cid
    have hi := ih (fill_court sh s cid).1 (logs ++ [(fill_court sh s cid).2])
    exact ⟨hi.1.trans hf.1, hi.2.1.trans hf.2.1, hi.2.2.1.trans hf.2.2.1,
      hi.2.2.2.1.trans hf.2.2.2.1, hi.2.2.2.2.1.trans hf.2.2.2.2.1,
      hi.2.2.2.2.2.trans hf.2.2.2.2.2⟩

theorem fill_go_busy_mono (sh : Nat → List String → List String) (cids : List Nat)
    (s : BM) (logs : List String) (p : String) (hp : p ∈ s.busy_players) :
    p ∈ (fill_go sh cids s logs).1.busy_players := by
  induction cids generalizing s logs with
  | nil => simpa [fill_go]
  | cons cid rest ih =>
    simp only [fill_go]
    exact ih _ _ (fill_court_busy_mono sh s cid p hp)

theorem fill_go_status_ne (sh : Nat → List String → List String) (cids : List Nat)
    (s : BM) (logs : List String) (c : Nat) (hc : c ∉ cids) :
    aget (fill_go sh cids s logs).1.courts_status c = aget s.courts_status c := by
  induction cids generalizing s logs with
  | nil => simp [fill_go]
  | cons cid rest ih =>
    have hcc : c ≠ cid ∧ c ∉ rest := by
      simpa [List.mem_cons, not_or] using hc
    simp only [fill_go]
    exact (ih _ _ hcc.2).trans (fill_court_status_ne sh s cid c hcc.1)

theorem fill_go_logs (sh : Nat → List String → List String) (cids : List Nat)
    (s : BM) (logs : List String) :
    (fill_go sh cids s logs).2.length = logs.length + cids.length := by
  induction cids generalizing s logs with
  | nil => simp [fill_go]
  | cons cid rest ih =>
    simp only [fill_go, ih, List.length_append, List.length_cons, List.length_nil]
    omega

theorem fill_go_pc (sh : Nat → List String → List String) (hsh : PermSh sh)
    (cids : List Nat) :
    ∀ (s : BM) (logs : List String), s.players.Nodup → ∀ p : String,
    agetD (fill_go sh cids s logs).1.play_counts p 0 =
      agetD s.play_counts p 0 +
        (if p ∈ (fill_go sh cids s logs).1.busy_players ∧ p ∉ s.busy_players
          then 1 else 0) := by
  induction cids with
  | nil =>
    intro s logs hnd p
    simp [fill_go]
  | cons cid rest ih =>
    intro s logs hnd p
    simp only [fill_go]
    have hnd1 : (fill_court sh s cid).1.players.Nodup := by
      rw [(fill_court_frame sh s cid).1]
      exact hnd
    have H := ih (fill_court sh s cid).1 (logs ++ [(fill_court sh s cid).2]) hnd1 p
    rcases fill_court_state sh s cid hnd hsh with hcase | ⟨g, bc, hlen, hgnd, hmem, heq⟩
    · simp only [hcase] at H ⊢
      exact H
    · have hpc1 : agetD (fill_court sh s cid).1.play_counts p 0 =
          agetD s.play_counts p 0 + g.count p := by
        rw [heq]
        simpa [bump_counts] using agetD_bump g s.play_counts p
      have hbusy1 : ∀ q : String, q ∈ (fill_court sh s cid).1.busy_players ↔
          q ∈ s.busy_players ∨ q ∈ g := by
        intro q
        rw [heq]
        exact mem_addAll _ _ q
      by_cases hpg : p ∈ g
      · have hpnb : p ∉ s.busy_players := (hmem p hpg).2
        have hcount : g.count p = 1 := List.count_eq_one_of_mem hgnd hpg
        have hp1 : p ∈ (fill_court sh s cid).1.busy_players :=
          (hbusy1 p).mpr (Or.inr hpg)
        have hpF : p ∈ (fill_go sh rest (fill_court sh s cid).1
            (logs ++ [(fill_court sh s cid).2])).1.busy_players :=
          fill_go_busy_mono sh rest _ _ p hp1
        rw [H, hpc1, hcount]
        simp [hp1, hpF, hpnb]
      · have hcount : g.count p = 0 := List.count_eq_zero.mpr hpg
        have hiff : (p ∈ (fill_court sh s cid).1.busy_players) ↔
            (p ∈ s.busy_players) := by
          rw [hbusy1]
          simp [hpg]
        rw [H, hpc1, hcount]
        by_cases hpb : p ∈ s.busy_players
        · simp [hpb, hiff.mpr hpb]
        · have : p ∉ (fill_court sh s cid).1.busy_players := fun hx => hpb (hiff.mp hx)
          simp [hpb, this]

theorem fill_go_sum (sh : Nat → List String → List String) (hsh : PermSh sh)
    (cids : List Nat) :
    ∀ (s : BM) (logs : List String), s.players.Nodup → cids.Nodup →
    (∀ c ∈ cids, court_empty s c = true) →
    vals_sum (fill_go sh cids s logs).1.play_counts =
      vals_sum s.play_counts +
        4 * (cids.filter
          (fun c => !court_empty (fill_go sh cids s logs).1 c)).length := by
  induction cids with
  | nil =>
    intro s logs _ _ _
    simp [fill_go]
  | cons cid rest ih =>
    intro s logs hnd hcnd hemp
    have hcidrest : cid ∉ rest := (List.nodup_cons.mp hcnd).1
    have hrestnd : rest.Nodup := (List.nodup_cons.mp hcnd).2
    simp only [fill_go]
    have hnd1 : (fill_court sh s cid).1.players.Nodup := by
      rw [(fill_court_frame sh s cid).1]
      exact hnd
    have hFcid : aget (fill_go sh rest (fill_court sh s cid).1
          (logs ++ [(fill_court sh s cid).2])).1.courts_status cid =
        aget (fill_court sh s cid).1.courts_status cid :=
      fill_go_status_ne sh rest _ _ cid hcidrest
    rcases fill_court_state sh s cid hnd hsh with hcase | ⟨g, bc, hlen, hgnd, hmem, heq⟩
    · have hemp1 : ∀ c ∈ rest, court_empty (fill_court sh s cid).1 c = true := by
        intro c hc
        rw [hcase]
        exact hemp c (List.mem_cons_of_mem _ hc)
      have IH := ih (fill_court sh s cid).1 (logs ++ [(fill_court sh s cid).2])
        hnd1 hrestnd hemp1
      simp only [hcase] at IH hFcid
      have hce : court_empty (fill_go sh rest s
          (logs ++ [(fill_court sh s cid).2])).1 cid = true := by
        unfold court_empty at hemp ⊢
        rw [hFcid]
        exact hemp cid (List.mem_cons_self _ _)
      simp only [hcase]
      rw [IH, List.filter_cons]
      simp [hce]
    · have hstat1 : aget (fill_court sh s cid).1.courts_status cid =
          some (some ⟨bc.1, bc.2, g⟩) := by
        rw [heq]
        exact aget_aset_self _ _ _
      have hsum1 : vals_sum (fill_court sh s cid).1.play_counts =
          vals_sum s.play_counts + 4 := by
        rw [heq]
        have := vals_sum_bump g s.play_counts
        simpa [bump_counts, hlen] using this
      have hemp1 : ∀ c ∈ rest, court_empty (fill_court sh s cid).1 c = true := by
        intro c hc
        have hne : c ≠ cid := fun hx => hcidrest (hx ▸ hc)
        unfold court_empty
        rw [heq]
        have := aget_aset_ne s.courts_status cid c (some ⟨bc.1, bc.2, g⟩) hne
        simp only [BM.mk.injEq] at this ⊢
        rw [this]
        exact hemp c (List.mem_cons_of_mem _ hc)
      have IH := ih (fill_court sh s cid).1 (logs ++ [(fill_court sh s cid).2])
        hnd1 hrestnd hemp1
      have hce : court_empty (fill_go sh rest (fill_court sh s cid).1
          (logs ++ [(fill_court sh s cid).2])).1 cid = false := by
        unfold court_empty
        rw [hFcid, hstat1]
      rw [IH, hsum1, List.filter_cons]
      simp only [hce, Bool.not_false, if_pos, List.length_cons]
      ring

/-! ### Lemmas about the rest-counter update -/

theorem rest_fold_not_mem (s : BM) (ks : List String) (cr : List (String × Nat))
    (p : String) (hp : p ∉ ks) :
    agetD (ks.foldl
        (fun cr q => aset cr q (if q ∈ s.busy_players then 0 else agetD cr q 0 + 1))
        cr) p 0 = agetD cr p 0 := by
  induction ks generalizing cr with
  | nil => simp
  | cons k rest ih =>
    have hpk : p ≠ k ∧ p ∉ rest := by
      simpa [List.mem_cons, not_or] using hp
    simp only [List.foldl_cons]
    rw [ih _ hpk.2, agetD_aset_ne _ _ _ _ _ hpk.1]

theorem rest_fold_mem (s : BM) (ks : List String) (p : String) (hnd : ks.Nodup)
    (hp : p ∈ ks) :
    ∀ cr : List (String × Nat),
    agetD (ks.foldl
        (fun cr q => aset cr q (if q ∈ s.busy_players then 0 else agetD cr q 0 + 1))
        cr) p 0 = if p ∈ s.busy_players then 0 else agetD cr p 0 + 1 := by
  induction ks with
  | nil => cases hp
  | cons k rest ih =>
    intro cr
    simp only [List.foldl_cons]
    rcases List.mem_cons.mp hp with rfl | hpr
    · have hk : p ∉ rest := (List.nodup_cons.mp hnd).1
      rw [rest_fold_not_mem s rest _ p hk, agetD_aset_self]
    · have hne : p ≠ k := by
        rintro rfl
        exact (List.nodup_cons.mp hnd).1 hpr
      rw [ih (List.nodup_cons.mp hnd).2 hpr, agetD_aset_ne _ _ _ _ _ hne]

theorem rest_update_frame (s : BM) :
    (rest_update s).players = s.players ∧
    (rest_update s).courts_num = s.courts_num ∧
    (rest_update s).play_counts = s.play_counts ∧
    (rest_update s).partner_history = s.partner_history ∧
    (rest_update s).opponent_history = s.opponent_history ∧
    (rest_update s).match_history = s.match_history ∧
    (rest_update s).courts_status = s.courts_status ∧
    (rest_update s).busy_players = s.busy_players := by
  simp [rest_update]

theorem rest_update_cr (s : BM) (hnd : s.players.Nodup) (p : String)
    (hp : p ∈ s.players) :
    agetD (rest_update s).consecutive_rests p 0 =
      if p ∈ s.busy_players then 0 else agetD s.consecutive_rests p 0 + 1 := by
  simp only [rest_update]
  exact rest_fold_mem s s.players p hnd hp s.consecutive_rests

/-! ### Lemmas about `empty_courts` -/

theorem empty_courts_sorted (s : BM) :
    List.Pairwise (fun a b => a < b) (empty_courts s) :=
  (List.pairwise_lt_range' 1 s.courts_num).filter _

theorem empty_courts_nodup (s : BM) : (empty_courts s).Nodup :=
  (empty_courts_sorted s).imp (fun h => Nat.ne_of_lt h)

theorem empty_courts_is_empty (s : BM) (c : Nat) (hc : c ∈ empty_courts s) :
    court_empty s c = true :=
  List.of_mem_filter hc

theorem empty_courts_bound (s : BM) (c : Nat) (hc : c ∈ empty_courts s) :
    1 ≤ c ∧ c ≤ s.courts_num := by
  have h1 := (List.mem_filter.mp hc).1
  have h2 := List.mem_range'_1.mp h1
  omega

theorem not_mem_empty_courts (s : BM) (c : Nat) (hc : s.courts_num < c) :
    c ∉ empty_courts s := by
  intro h
  have := empty_courts_bound s c h
  omega

/-! ### Lemmas assembling `fill_empty_courts` -/

theorem fill_empty_frame (sh : Nat → List String → List String) (s : BM) :
    (fill_empty_courts sh s).1.players = s.players ∧
    (fill_empty_courts sh s).1.courts_num = s.courts_num ∧
    (fill_empty_courts sh s).1.partner_history = s.partner_history ∧
    (fill_empty_courts sh s).1.opponent_history = s.opponent_history ∧
    (fill_empty_courts sh s).1.match_history = s.match_history := by
  unfold fill_empty_courts
  cases he : (empty_courts s).isEmpty with
  | true => simp [he]
  | false =>
    simp only [he, Bool.false_eq_true, if_false]
    have hg := fill_go_frame sh (empty_courts s) s []
    have hr := rest_update_frame (fill_go sh (empty_courts s) s []).1
    exact ⟨hr.1.trans hg.1, hr.2.1.trans hg.2.1, hr.2.2.2.1.trans hg.2.2.2.1,
      hr.2.2.2.2.1.trans hg.2.2.2.2.1, hr.2.2.2.2.2.1.trans hg.2.2.2.2.2⟩

theorem fill_empty_core (sh : Nat → List String → List String) (s : BM) :
    (fill_empty_courts sh s).1.busy_players =
      (fill_go sh (empty_courts s) s []).1.busy_players ∧
    (fill_empty_courts sh s).1.play_counts =
      (fill_go sh (empty_courts s) s []).1.play_counts ∧
    (fill_empty_courts sh s).1.courts_status =
      (fill_go sh (empty_courts s) s []).1.courts_status := by
  unfold fill_empty_courts
  cases he : (empty_courts s).isEmpty with
  | true =>
    have hnil : empty_courts s = [] := List.isEmpty_iff.mp he
    simp [he, hnil, fill_go]
  | false =>
    simp only [he, Bool.false_eq_true, if_false]
    have hr := rest_update_frame (fill_go sh (empty_courts s) s []).1
    exact ⟨hr.2.2.2.2.2.2.2, hr.2.2.1, hr.2.2.2.2.2.2.1⟩

theorem fill_empty_pc_point (sh : Nat → List String → List String) (hsh : PermSh sh)
    (s : BM) (hnd : s.players.Nodup) (p : String) :
    agetD (fill_empty_courts sh s).1.play_counts p 0 =
      agetD s.play_counts p 0 +
        (if p ∈ (fill_empty_courts sh s).1.busy_players ∧ p ∉ s.busy_players
          then 1 else 0) := by
  have hc := fill_empty_core sh s
  simp only [hc.1, hc.2.1]
  exact fill_go_pc sh hsh (empty_courts s) s [] hnd p

theorem fill_empty_sum (sh : Nat → List String → List String) (hsh : PermSh sh)
    (s : BM) (hnd : s.players.Nodup) :
    vals_sum (fill_empty_courts sh s).1.play_counts =
      vals_sum s.play_counts + 4 * filled_count s (fill_empty_courts sh s).1 := by
  have hc := fill_empty_core sh s
  unfold filled_count
  have hcs : ∀ c, court_empty (fill_empty_courts sh s).1 c =
      court_empty (fill_go sh (empty_courts s) s []).1 c := by
    intro c
    unfold court_empty
    rw [hc.2.2]
  have hfil : (empty_courts s).filter
        (fun c => !court_empty (fill_empty_courts sh s).1 c) =
      (empty_courts s).filter
        (fun c => !court_empty (fill_go sh (empty_courts s) s []).1 c) :=
    List.filter_congr (fun c _ => by rw [hcs c])
  rw [hc.2.1, hfil]
  exact fill_go_sum sh hsh (empty_courts s) s [] hnd (empty_courts_nodup s)
    (fun c hcm => empty_courts_is_empty s c hcm)

theorem fill_empty_status_high (sh : Nat → List String → List String) (s : BM)
    (cid : Nat) (hcid : s.courts_num < cid) :
    aget (fill_empty_courts sh s).1.courts_status cid = aget s.courts_status cid := by
  have hc := fill_empty_core sh s
  rw [hc.2.2]
  exact fill_go_status_ne sh (empty_courts s) s [] cid (not_mem_empty_courts s cid hcid)

theorem fill_empty_logs_len (sh : Nat → List String → List String) (s : BM)
    (h : empty_courts s ≠ []) :
    (fill_empty_courts sh s).2.length = (empty_courts s).length := by
  unfold fill_empty_courts
  cases he : (empty_courts s).isEmpty with
  | true => exact absurd (List.isEmpty_iff.mp he) h
  | false =>
    simp only [he, Bool.false_eq_true, if_false]
    simpa using fill_go_logs sh (empty_courts s) s []

theorem fill_empty_cr (sh : Nat → List String → List String) (s : BM)
    (hnd : s.players.Nodup) (h : empty_courts s ≠ []) (p : String)
    (hp : p ∈ s.players) :
    agetD (fill_empty_courts sh s).1.consecutive_rests p 0 =
      if p ∈ (fill_empty_courts sh s).1.busy_players then 0
      else agetD s.consecutive_rests p 0 + 1 := by
  unfold fill_empty_courts
  cases he : (empty_courts s).isEmpty with
  | true => exact absurd (List.isEmpty_iff.mp he) h
  | false =>
    simp only [he, Bool.false_eq_true, if_false]
    have hgf := fill_go_frame sh (empty_courts s) s []
    have hndG : (fill_go sh (empty_courts s) s []).1.players.Nodup := by
      rw [hgf.1]
      exact hnd
    have hpG : p ∈ (fill_go sh (empty_courts s) s []).1.players := by
      rw [hgf.1]
      exact hp
    have hru := rest_update_cr (fill_go sh (empty_courts s) s []).1 hndG p hpG
    have hrb := (rest_update_frame (fill_go sh (empty_courts s) s []).1).2.2.2.2.2.2.2
    rw [hru, hgf.2.2.1, hrb]

/-! ### Case lemmas for the roster and court-count operations -/

theorem add_player_invalid (s : BM) (name : String) (h : pyStrip name = "") :
    add_player s name = (s, false, "名字不能為空") := by
  unfold add_player
  simp [h]

theorem add_player_dup (s : BM) (name : String) (h1 : pyStrip name ≠ "")
    (h2 : pyStrip name ∈ s.players) :
    add_player s name = (s, false, pyStrip name ++ " 已經在名單內了") := by
  unfold add_player
  simp [h1, h2]

theorem add_player_ok (s : BM) (name : String) (h1 : pyStrip name ≠ "")
    (h2 : pyStrip name ∉ s.players) :
    add_player s name =
      ({ s with
          players := s.players ++ [pyStrip name]
          play_counts := aset s.play_counts (pyStrip name) 0
          consecutive_rests := aset s.consecutive_rests (pyStrip name) 0 },
        true, "已加入球員: " ++ pyStrip name) := by
  unfold add_player
  simp [h1, h2]

theorem remove_player_notfound (s : BM) (name : String) (h : name ∉ s.players) :
    remove_player s name = (s, false, "找不到此球員") := by
  unfold remove_player
  simp [h]

theorem remove_player_busy (s : BM) (name : String) (h1 : name ∈ s.players)
    (h2 : name ∈ s.busy_players) :
    remove_player s name =
      (s, false, "⚠️ " ++ name ++ " 正在場上比賽中，請先結算該場比賽後再移除。") := by
  unfold remove_player
  simp [h1, h2]

theorem remove_player_ok (s : BM) (name : String) (h1 : name ∈ s.players)
    (h2 : name ∉ s.busy_players) :
    remove_player s name =
      ({ s with
          players := s.players.erase name
          consecutive_rests := aerase s.consecutive_rests name },
        true, "已將 " ++ name ++ " 移出名單 (歷史戰績保留)") := by
  unfold remove_player
  simp [h1, h2]

theorem update_courts_num_zero (s : BM) : update_courts_num s 0 = s := by
  unfold update_courts_num
  simp

theorem update_courts_num_shrink (s : BM) (num : Nat) (h1 : 1 ≤ num)
    (h2 : num ≤ s.courts_num) :
    update_courts_num s num = { s with courts_num := num } := by
  unfold update_courts_num
  have g1 : ¬ num < 1 := by omega
  have g2 : ¬ s.courts_num < num := by omega
  simp [g1, g2]

theorem update_courts_num_grow (s : BM) (num : Nat) (h : s.courts_num < num) :
    update_courts_num s num =
      { s with
          courts_num := num
          courts_status :=
            (List.range' (s.courts_num + 1) (num - s.courts_num)).foldl
              (fun m i => aset m i none) s.courts_status } := by
  unfold update_courts_num
  have g1 : ¬ num < 1 := by omega
  simp [g1, h]

theorem aget_fold_aset_none {V : Type} (cs : List (Nat × Option V)) (ks : List Nat)
    (i : Nat) :
    aget (ks.foldl (fun m k => aset m k none) cs) i =
      if i ∈ ks then some none else aget cs i := by
  induction ks generalizing cs with
  | nil => simp
  | cons k rest ih =>
    simp only [List.foldl_cons, ih]
    by_cases hir : i ∈ rest
    · simp [hir, List.mem_cons]
    · by_cases hik : i = k
      · subst hik
        simp [hir, aget_aset_self]
      · simp [hir, hik, aget_aset_ne _ _ _ _ hik]

theorem finish_match_inactive (s : BM) (cid : Nat) (sc : String)
    (h : court_empty s cid = true) :
    finish_match s cid sc = (s, false) := by
  unfold finish_match
  split
  · rename_i m heq
    unfold court_empty at h
    rw [heq] at h
    simp at h
  · rfl

theorem finish_match_active (s : BM) (cid : Nat) (sc : String) (m : CourtMatch)
    (h : aget s.courts_status cid = some (some m)) :
    finish_match s cid sc =
      ({ s with
          match_history := s.match_history ++
            [⟨m.team1.1 ++ "&" ++ m.team1.2, m.team2.1 ++ "&" ++ m.team2.2,
              if sc = "" then "無紀錄" else sc⟩]
          partner_history :=
            aincr (aincr s.partner_history (pkey m.team1.1 m.team1.2))
              (pkey m.team2.1 m.team2.2)
          opponent_history :=
            [(m.team1.1, m.team2.1), (m.team1.1, m.team2.2),
              (m.team1.2, m.team2.1), (m.team1.2, m.team2.2)].foldl
              (fun oh pr => aincr oh (pkey pr.1 pr.2)) s.opponent_history
          busy_players := s.busy_players.filter (fun p => decide (p ∉ m.players))
          courts_status := aset s.courts_status cid none },
        true) := by
  unfold finish_match
  split
  · rename_i m' heq
    rw [h] at heq
    obtain rfl : m = m' := by
      injection heq with h1
      injection h1
    rfl
  · rename_i hne
    rw [h] at hne
    exact absurd rfl (hne m)

/-! ### The roster stays duplicate-free along every operation sequence -/

theorem applyOp_nodup (s : BM) (o : Op) (hnd : s.players.Nodup) :
    (applyOp s o).players.Nodup := by
  cases o with
  | register n =>
    show ((add_player s n).1).players.Nodup
    by_cases h1 : pyStrip n = ""
    · rw [add_player_invalid s n h1]
      exact hnd
    · by_cases h2 : pyStrip n ∈ s.players
      · rw [add_player_dup s n h1 h2]
        exact hnd
      · rw [add_player_ok s n h1 h2]
        refine List.nodup_append.mpr ⟨hnd, List.nodup_singleton _, ?_⟩
        intro a ha hb
        rw [List.mem_singleton.mp hb] at ha
        exact h2 ha
  | remove n =>
    show ((remove_player s n).1).players.Nodup
    by_cases h1 : n ∈ s.players
    · by_cases h2 : n ∈ s.busy_players
      · rw [remove_player_busy s n h1 h2]
        exact hnd
      · rw [remove_player_ok s n h1 h2]
        exact hnd.erase n
    · rw [remove_player_notfound s n h1]
      exact hnd
  | resize n =>
    show (update_courts_num s n).players.Nodup
    unfold update_courts_num
    by_cases h : n < 1 <;> simp [h, hnd]
  | fill sh =>
    show ((fill_empty_courts sh s).1).players.Nodup
    rw [(fill_empty_frame sh s).1]
    exact hnd
  | finish cid sc =>
    show ((finish_match s cid sc).1).players.Nodup
    by_cases h : court_empty s cid = true
    · rw [finish_match_inactive s cid sc h]
      exact hnd
    · cases hm : aget s.courts_status cid with
      | none =>
        unfold court_empty at h
        rw [hm] at h
        simp at h
      | some om =>
        cases om with
        | none =>
          unfold court_empty at h
          rw [hm] at h
          simp at h
        | some m =>
          rw [finish_match_active s cid sc m hm]
          exact hnd

theorem runOps_nodup_from (ops : List Op) :
    ∀ s : BM, s.players.Nodup → (runOps s ops).players.Nodup := by
  induction ops with
  | nil =>
    intro s h
    simpa [runOps]
  | cons o rest ih =>
    intro s h
    simpa [runOps] using ih (applyOp s o) (applyOp_nodup s o h)

theorem runOps_nodup (ops : List Op) : (runOps initBM ops).players.Nodup :=
  runOps_nodup_from ops initBM (by simp [initBM])

/-! ### Claim C5 -/

/-- C5: `Register` fails with the invalid-name error exactly when the name is
empty after trimming, fails with the duplicate error when the trimmed name is
already among the current (non-removed) participants — an exact,
case-sensitive membership test — and otherwise succeeds, appending the
participant with `playCount = 0`, `consecutiveRestCount = 0`, and Available
status (registered and not busy). -/
theorem claim5_register (s : BM) (name : String) :
    (pyStrip name = "" → add_player s name = (s, false, "名字不能為空")) ∧
    (pyStrip name ≠ "" → pyStrip name ∈ s.players →
      add_player s name = (s, false, pyStrip name ++ " 已經在名單內了")) ∧
    (pyStrip name ≠ "" → pyStrip name ∉ s.players →
      (add_player s name).2.1 = true ∧
      (add_player s name).1.players = s.players ++ [pyStrip name] ∧
      agetD (add_player s name).1.play_counts (pyStrip name) 0 = 0 ∧
      agetD (add_player s name).1.consecutive_rests (pyStrip name) 0 = 0 ∧
      (add_player s name).1.busy_players = s.busy_players ∧
      pyStrip name ∈ (add_player s name).1.players ∧
      ((∀ p ∈ s.busy_players, p ∈ s.players) →
        pyStrip name ∉ (add_player s name).1.busy_players)) := by
  refine ⟨fun h => add_player_invalid s name h,
    fun h1 h2 => add_player_dup s name h1 h2, fun h1 h2 => ?_⟩
  rw [add_player_ok s name h1 h2]
  refine ⟨rfl, rfl, agetD_aset_self _ _ _ _, agetD_aset_self _ _ _ _, rfl, ?_, ?_⟩
  · simp
  · intro hsub hmem
    exact h2 (hsub _ hmem)

theorem claim5_register_witness :
    pyStrip "  " = "" ∧
    add_player initBM "  " = (initBM, false, "名字不能為空") ∧
    pyStrip " bob " ≠ "" ∧ pyStrip " bob " ∉ initBM.players ∧
    (add_player initBM " bob ").2.1 = true ∧
    agetD (add_player initBM " bob ").1.play_counts (pyStrip " bob ") 0 = 0 := by
  have h1 := (claim5_register initBM "  ").1 (by decide)
  have h2 := (claim5_register initBM " bob ").2.2 (by decide) (by decide)
  exact ⟨by decide, h1, by decide, by decide, h2.1, h2.2.2.1⟩

/-! ### Claim C6 -/

/-- C6: `Remove` fails with the not-found error when the name is not a current
participant, fails with the still-busy error (leaving all state unchanged)
when the participant is assigned to an active match, and otherwise succeeds:
the participant leaves the roster, their `consecutiveRestCount` entry is
deleted, their `playCount` is retained, and they are excluded from
`AvailableParticipants` and from the duplicate check (roster membership). -/
theorem claim6_remove (s : BM) (name : String) :
    (name ∉ s.players → remove_player s name = (s, false, "找不到此球員")) ∧
    (name ∈ s.players → name ∈ s.busy_players →
      remove_player s name =
        (s, false, "⚠️ " ++ name ++ " 正在場上比賽中，請先結算該場比賽後再移除。")) ∧
    (name ∈ s.players → name ∉ s.busy_players →
      (remove_player s name).2.1 = true ∧
      (remove_player s name).1.players = s.players.erase name ∧
      (remove_player s name).1.consecutive_rests = aerase s.consecutive_rests name ∧
      (remove_player s name).1.play_counts = s.play_counts ∧
      (remove_player s name).1.partner_history = s.partner_history ∧
      (remove_player s name).1.opponent_history = s.opponent_history ∧
      (remove_player s name).1.match_history = s.match_history ∧
      (remove_player s name).1.courts_status = s.courts_status ∧
      (remove_player s name).1.busy_players = s.busy_players ∧
      (s.players.Nodup → name ∉ (remove_player s name).1.players) ∧
      (s.players.Nodup → name ∉ get_available_players (remove_player s name).1)) := by
  refine ⟨fun h => remove_player_notfound s name h,
    fun h1 h2 => remove_player_busy s name h1 h2, fun h1 h2 => ?_⟩
  rw [remove_player_ok s name h1 h2]
  refine ⟨rfl, rfl, rfl, rfl, rfl, rfl, rfl, rfl, rfl, fun hnd => hnd.not_mem_erase,
    fun hnd hmem => ?_⟩
  exact hnd.not_mem_erase (List.mem_filter.mp hmem).1

theorem claim6_remove_witness :
    remove_player demoFour "z" = (demoFour, false, "找不到此球員") ∧
    remove_player demoFilled "a" =
      (demoFilled, false,
        "⚠️ " ++ "a" ++ " 正在場上比賽中，請先結算該場比賽後再移除。") ∧
    (remove_player demoFour "a").2.1 = true ∧
    (remove_player demoFour "a").1.play_counts = demoFour.play_counts ∧
    "a" ∉ get_available_players (remove_player demoFour "a").1 := by
  have h1 := (claim6_remove demoFour "z").1 (by decide)
  have h2 := (claim6_remove demoFilled "a").2.1 (by decide) (by decide)
  have h3 := (claim6_remove demoFour "a").2.2 (by decide) (by decide)
  exact ⟨h1, h2, h3.1, h3.2.2.2.1, h3.2.2.2.2.2.2.2.2.2.2 (by decide)⟩

/-! ### Claim C9 -/

/-- C9: when no court in `1..courts_num` is idle, `fill_empty_courts` returns
exactly the single informational message and leaves the whole state
unchanged. -/
theorem claim9_no_idle (sh : Nat → List String → List String) (s : BM)
    (h : empty_courts s = []) :
    fill_empty_courts sh s = (s, ["沒有空場地需要填補。"]) := by
  unfold fill_empty_courts
  simp [h]

theorem claim9_no_idle_witness :
    empty_courts demoFilled = [] ∧
    fill_empty_courts idSh demoFilled = (demoFilled, ["沒有空場地需要填補。"]) :=
  ⟨by decide, claim9_no_idle idSh demoFilled (by decide)⟩

/-! ### Claim C10 -/

/-- C10: a previously registered, currently non-busy participant can be
removed and then immediately re-registered under the same name (the
duplicate check only covers current participants); the removal retains their
`playCount`, and the re-registration resets it to 0. -/
theorem claim10_reregister (s : BM) (name : String) (hnd : s.players.Nodup)
    (hmem : name ∈ s.players) (hnb : name ∉ s.busy_players)
    (hstr : pyStrip name = name) (hne : name ≠ "") :
    (remove_player s name).2.1 = true ∧
    agetD (remove_player s name).1.play_counts name 0 = agetD s.play_counts name 0 ∧
    (add_player (remove_player s name).1 name).2.1 = true ∧
    agetD (add_player (remove_player s name).1 name).1.play_counts name 0 = 0 := by
  rw [remove_player_ok s name hmem hnb]
  have hne' : pyStrip name ≠ "" := by
    rw [hstr]
    exact hne
  have hnm : pyStrip name ∉ s.players.erase name := by
    rw [hstr]
    exact hnd.not_mem_erase
  rw [add_player_ok _ name hne' hnm]
  refine ⟨rfl, rfl, rfl, ?_⟩
  simp only [hstr]
  exact agetD_aset_self s.play_counts name 0 0

/-! ### Claim C2 -/

/-- C2: for four priority-sorted candidates exactly the three splits
`{(0,1)|(2,3)}`, `{(0,2)|(1,3)}`, `{(0,3)|(1,2)}` are enumerated; each
split's cost is 1000 times the sum of the two teams' partner costs plus the
sum of the opponent costs over the four cross pairs; the split with minimum
cost is chosen with the first minimum in enumeration order winning ties; and
in the concrete example with `PartnerCost(A,B) = 1` and all other costs 0 the
chosen split is `{A,C}|{B,D}`. -/
theorem claim2_split_selection :
    (∀ a b c d : String, combos4 a b c d =
      [((a, b), (c, d)), ((a, c), (b, d)), ((a, d), (b, c))]) ∧
    (∀ (s : BM) (c : Combo), combo_cost s c =
      1000 * (get_pair_cost s c.1.1 c.1.2 + get_pair_cost s c.2.1 c.2.2) +
        (get_opponent_cost s c.1.1 c.2.1 + get_opponent_cost s c.1.1 c.2.2 +
          get_opponent_cost s c.1.2 c.2.1 + get_opponent_cost s c.1.2 c.2.2)) ∧
    (∀ (s : BM) (c0 c1 c2 : Combo), best_combo s [c0, c1, c2] =
      some (if combo_cost s c2 < combo_cost s c0 ∧ combo_cost s c2 < combo_cost s c1
        then c2
        else if combo_cost s c1 < combo_cost s c0 then c1 else c0)) ∧
    best_combo { initBM with partner_history := [(("A", "B"), 1)] }
      (combos4 "A" "B" "C" "D") = some (("A", "C"), ("B", "D")) := by
  refine ⟨fun a b c d => rfl, fun s c => by unfold combo_cost; ring, ?_, by decide⟩
  intro s c0 c1 c2
  unfold best_combo
  simp only [List.foldl_cons, List.foldl_nil]
  by_cases h1 : combo_cost s c1 < combo_cost s c0
  · by_cases h2 : combo_cost s c2 < combo_cost s c1
    · have h3 : combo_cost s c2 < combo_cost s c0 := lt_trans h2 h1
      simp [h1, h2, h3]
    · simp [h1, h2]
  · by_cases h2 : combo_cost s c2 < combo_cost s c0
    · have h4 : combo_cost s c2 < combo_cost s c1 :=
        lt_of_lt_of_le h2 (le_of_not_lt h1)
      simp [h1, h2, h4]
    · simp [h1, h2]

/-! ### Claim C7 -/

/-- C7: `Resize` is a no-op for a new count below 1; growing makes the new
ids idle while leaving other slots' statuses unchanged; shrinking (to a
count at least 1) changes only the configured count and no slot status, so
active slots above the new count keep running; idle-slot enumeration is the
ascending list restricted to `1..courts_num`, so slots above the count are
never refilled — `fill_empty_courts` leaves their status untouched — and a
closing slot that is finished (or idle) behaves as dropped: `finish_match`
refuses it and it is never enumerated. -/
theorem claim7_resize (s : BM) (num : Nat) (sh : Nat → List String → List String)
    (cid : Nat) (sc : String) :
    (update_courts_num s 0 = s) ∧
    (1 ≤ num → (update_courts_num s num).courts_num = num) ∧
    (s.courts_num < num → ∀ i : Nat,
      aget (update_courts_num s num).courts_status i =
        if s.courts_num < i ∧ i ≤ num then some none
        else aget s.courts_status i) ∧
    (1 ≤ num → num ≤ s.courts_num →
      (update_courts_num s num).courts_status = s.courts_status) ∧
    (s.courts_num < cid → cid ∉ empty_courts s) ∧
    List.Pairwise (fun a b => a < b) (empty_courts s) ∧
    (s.courts_num < cid →
      aget (fill_empty_courts sh s).1.courts_status cid = aget s.courts_status cid) ∧
    (court_empty s cid = true → finish_match s cid sc = (s, false)) := by
  refine ⟨update_courts_num_zero s, ?_, ?_, ?_,
    fun h => not_mem_empty_courts s cid h, empty_courts_sorted s,
    fun h => fill_empty_status_high sh s cid h,
    fun h => finish_match_inactive s cid sc h⟩
  · intro h
    by_cases hg : s.courts_num < num
    · rw [update_courts_num_grow s num hg]
    · rw [update_courts_num_shrink s num h (by omega)]
  · intro hg i
    rw [update_courts_num_grow s num hg]
    have hiff : (i ∈ List.range' (s.courts_num + 1) (num - s.courts_num)) ↔
        (s.courts_num < i ∧ i ≤ num) := by
      rw [List.mem_range'_1]
      omega
    show aget ((List.range' (s.courts_num + 1) (num - s.courts_num)).foldl
      (fun m i => aset m i none) s.courts_status) i = _
    rw [aget_fold_aset_none]
    by_cases hc : s.courts_num < i ∧ i ≤ num
    · rw [if_pos (hiff.mpr hc), if_pos hc]
    · rw [if_neg (fun hx => hc (hiff.mp hx)), if_neg hc]
  · intro h1 h2
    rw [update_courts_num_shrink s num h1 h2]

theorem claim7_resize_witness :
    (update_courts_num initBM 0 = initBM) ∧
    ((update_courts_num initBM 5).courts_num = 5) ∧
    (aget (update_courts_num initBM 5).courts_status 4 =
      if initBM.courts_num < 4 ∧ 4 ≤ 5 then some none
      else aget initBM.courts_status 4) ∧
    ((update_courts_num demoFilled 1).courts_status = demoFilled.courts_status) ∧
    (2 ∉ empty_courts demoClosing) ∧
    (aget (fill_empty_courts idSh demoClosing).1.courts_status 2 =
      aget demoClosing.courts_status 2) ∧
    (finish_match initBM 1 "" = (initBM, false)) := by
  refine ⟨(claim7_resize initBM 5 idSh 1 "").1,
    (claim7_resize initBM 5 idSh 1 "").2.1 (by decide),
    (claim7_resize initBM 5 idSh 1 "").2.2.1 (by decide) 4,
    (claim7_resize demoFilled 1 idSh 1 "").2.2.2.1 (by decide) (by decide),
    (claim7_resize demoClosing 1 idSh 2 "").2.2.2.2.1 (by decide),
    (claim7_resize demoClosing 1 idSh 2 "").2.2.2.2.2.2.1 (by decide),
    (claim7_resize initBM 1 idSh 1 "").2.2.2.2.2.2.2 (by decide)⟩

theorem claim10_reregister_witness :
    agetD demoFour.play_counts "a" 0 = 0 ∧
    (remove_player demoFour "a").2.1 = true ∧
    (add_player (remove_player demoFour "a").1 "a").2.1 = true ∧
    agetD (add_player (remove_player demoFour "a").1 "a").1.play_counts "a" 0 = 0 := by
  have h := claim10_reregister demoFour "a" (by decide) (by decide) (by decide)
    (by decide) (by decide)
  exact ⟨by decide, h.1, h.2.2.1, h.2.2.2⟩

/-! ### Claim C8 -/

/-- C8: when an idle court is reached with fewer than 4 available
participants the loop emits the skip entry carrying the available count and
leaves the state (hence that court) unchanged; every idle court still gets
its own log entry (one per idle court, so no failure stops the loop); and
whenever at least one idle court existed, the end-of-round rest-counter
update still applies to every registered participant: busy participants
reset to 0, everyone else incremented by 1. -/
theorem claim8_skip (sh : Nat → List String → List String) (s : BM) (cid : Nat) :
    ((get_available_players s).length < 4 →
      fill_court sh s cid = (s, skip_msg cid (get_available_players s).length)) ∧
    (∀ (cids : List Nat) (logs : List String),
      (fill_go sh cids s logs).2.length = logs.length + cids.length) ∧
    (empty_courts s ≠ [] →
      (fill_empty_courts sh s).2.length = (empty_courts s).length) ∧
    (s.players.Nodup → empty_courts s ≠ [] → ∀ p ∈ s.players,
      agetD (fill_empty_courts sh s).1.consecutive_rests p 0 =
        if p ∈ (fill_empty_courts sh s).1.busy_players then 0
        else agetD s.consecutive_rests p 0 + 1) :=
  ⟨fun h => fill_court_skip sh s cid h,
    fun cids logs => fill_go_logs sh cids s logs,
    fun h => fill_empty_logs_len sh s h,
    fun hnd h p hp => fill_empty_cr sh s hnd h p hp⟩

theorem claim8_skip_witness :
    (get_available_players demoPair).length < 4 ∧
    fill_court idSh demoPair 1 =
      (demoPair, skip_msg 1 (get_available_players demoPair).length) ∧
    empty_courts demoPair ≠ [] ∧
    (fill_empty_courts idSh demoPair).2.length = (empty_courts demoPair).length ∧
    "a" ∈ demoPair.players ∧
    agetD (fill_empty_courts idSh demoPair).1.consecutive_rests "a" 0 =
      if "a" ∈ (fill_empty_courts idSh demoPair).1.busy_players then 0
      else agetD demoPair.consecutive_rests "a" 0 + 1 := by
  have h := claim8_skip idSh demoPair 1
  exact ⟨by decide, h.1 (by decide), by decide, h.2.2.1 (by decide), by decide,
    h.2.2.2 (by decide) (by decide) "a" (by decide)⟩

/-! ### Claim C3 (corrected) -/

/-- C3 as stated is false: re-registering a previously removed participant
resets their retained `playCount` back to 0, so `playCount` is not
monotone across arbitrary operation sequences.  Here player `a` has
`playCount = 1` after one round, and `playCount = 0` again after being
removed and re-registered. -/
theorem claim3_counterexample :
    agetD (runOps initBM [Op.register "a", Op.register "b", Op.register "c",
      Op.register "d", Op.fill idSh]).play_counts "a" 0 = 1 ∧
    agetD (runOps initBM [Op.register "a", Op.register "b", Op.register "c",
      Op.register "d", Op.fill idSh, Op.finish 1 "", Op.remove "a",
      Op.register "a"]).play_counts "a" 0 = 0 := by
  decide

/-- C3 amended: along every operation sequence the roster stays
duplicate-free; `playCount` is unchanged by `Remove`, `Resize` and
`FinishMatch`; `Register` leaves every other participant's count unchanged
and, when it succeeds, sets the registered name's count to 0 (which is the
single non-monotone case: a re-registered removed participant restarts at
0); a `FillIdleSlots` call increments each placed participant's count by
exactly 1 — the placed participants being exactly those that became Busy —
and increases the sum of all counts by exactly 4 times the number of slots
filled in that call. -/
theorem claim3_amended (sh : Nat → List String → List String) (s : BM)
    (ops : List Op) (n : String) (cid : Nat) (sc : String) (num : Nat)
    (p : String) (hsh : PermSh sh) (hnd : s.players.Nodup) :
    ((runOps initBM ops).players.Nodup) ∧
    (agetD (fill_empty_courts sh s).1.play_counts p 0 =
      agetD s.play_counts p 0 +
        (if p ∈ (fill_empty_courts sh s).1.busy_players ∧ p ∉ s.busy_players
          then 1 else 0)) ∧
    (vals_sum (fill_empty_courts sh s).1.play_counts =
      vals_sum s.play_counts + 4 * filled_count s (fill_empty_courts sh s).1) ∧
    ((remove_player s n).1.play_counts = s.play_counts) ∧
    ((update_courts_num s num).play_counts = s.play_counts) ∧
    ((finish_match s cid sc).1.play_counts = s.play_counts) ∧
    (p ≠ pyStrip n →
      agetD (add_player s n).1.play_counts p 0 = agetD s.play_counts p 0) ∧
    ((add_player s n).2.1 = true →
      agetD (add_player s n).1.play_counts (pyStrip n) 0 = 0) := by
  refine ⟨runOps_nodup ops, fill_empty_pc_point sh hsh s hnd p,
    fill_empty_sum sh hsh s hnd, ?_, ?_, ?_, ?_, ?_⟩
  · by_cases h1 : n ∈ s.players
    · by_cases h2 : n ∈ s.busy_players
      · rw [remove_player_busy s n h1 h2]
      · rw [remove_player_ok s n h1 h2]
    · rw [remove_player_notfound s n h1]
  · unfold update_courts_num
    by_cases h : num < 1 <;> simp [h]
  · by_cases h : court_empty s cid = true
    · rw [finish_match_inactive s cid sc h]
    · cases hm : aget s.courts_status cid with
      | none =>
        unfold court_empty at h
        rw [hm] at h
        simp at h
      | some om =>
        cases om with
        | none =>
          unfold court_empty at h
          rw [hm] at h
          simp at h
        | some m => rw [finish_match_active s cid sc m hm]
  · intro hpn
    by_cases h1 : pyStrip n = ""
    · rw [add_player_invalid s n h1]
    · by_cases h2 : pyStrip n ∈ s.players
      · rw [add_player_dup s n h1 h2]
      · rw [add_player_ok s n h1 h2]
        exact agetD_aset_ne _ _ _ _ _ hpn
  · intro hok
    by_cases h1 : pyStrip n = ""
    · rw [add_player_invalid s n h1] at hok
      simp at hok
    · by_cases h2 : pyStrip n ∈ s.players
      · rw [add_player_dup s n h1 h2] at hok
        simp at hok
      · rw [add_player_ok s n h1 h2]
        exact agetD_aset_self _ _ _ _

theorem claim3_amended_witness :
    PermSh idSh ∧ demoFour.players.Nodup ∧
    agetD (fill_empty_courts idSh demoFour).1.play_counts "a" 0 =
      agetD demoFour.play_counts "a" 0 +
        (if "a" ∈ (fill_empty_courts idSh demoFour).1.busy_players ∧
            "a" ∉ demoFour.busy_players then 1 else 0) ∧
    vals_sum (fill_empty_courts idSh demoFour).1.play_counts =
      vals_sum demoFour.play_counts +
        4 * filled_count demoFour (fill_empty_courts idSh demoFour).1 ∧
    (finish_match demoFilled 1 "x").1.play_counts = demoFilled.play_counts := by
  have hsh : PermSh idSh := fun i l => List.Perm.refl l
  have h := claim3_amended idSh demoFour [] "z" 1 "" 2 "a" hsh (by decide)
  have h2 := claim3_amended idSh demoFilled [] "z" 1 "x" 2 "a" hsh (by decide)
  exact ⟨hsh, by decide, h.2.1, h.2.2.1, h2.2.2.2.2.2.1⟩

/-! ### Claim C1 (code bug) -/

/-- C1 fails on the code: growing the court count back over a still-running
"closing" court (`update_courts_num` sets every id in the grown range to
idle unconditionally) wipes that court's active match while its four
players stay Busy.  After eight registrations, filling both courts,
shrinking to 1 court and growing back to 2, player `e` is Busy but is
assigned to no court, so the Busy set is strictly larger than the union of
the active slots' participants. -/
theorem claim1_busy_union_bug :
    "e" ∈ demoWiped.busy_players ∧
    ∀ e ∈ demoWiped.courts_status, ∀ m : CourtMatch, e.2 = some m →
      "e" ∉ m.players := by
  decide

/-! ### Claim C4 -/

/-- C4: `FinishMatch` on a slot with no active match returns false and
changes nothing; on an active match — whose stored player list is some
rearrangement of its two teams' four distinct members, covering every
split the scheduler can choose — it returns true, appends exactly one
history record whose result text is the given text or the "no record"
sentinel when empty, increments each team's partner counter by 1 (leaving
all other partner keys unchanged), increments each of the four cross-pair
opponent counters by 1, removes exactly the four participants from the Busy
set without touching `play_counts` or `consecutive_rests`, clears the slot
to idle while leaving every other slot unchanged, and a second call on the
same slot is then a no-op returning false. -/
theorem claim4_finish (s : BM) (cid : Nat) (sc : String) :
    (court_empty s cid = true → finish_match s cid sc = (s, false)) ∧
    (∀ m : CourtMatch, aget s.courts_status cid = some (some m) →
      m.players.Perm [m.team1.1, m.team1.2, m.team2.1, m.team2.2] →
      m.players.Nodup →
      (finish_match s cid sc).2 = true ∧
      (finish_match s cid sc).1.match_history = s.match_history ++
        [⟨m.team1.1 ++ "&" ++ m.team1.2, m.team2.1 ++ "&" ++ m.team2.2,
          if sc = "" then "無紀錄" else sc⟩] ∧
      agetD (finish_match s cid sc).1.partner_history
          (pkey m.team1.1 m.team1.2) 0 =
        agetD s.partner_history (pkey m.team1.1 m.team1.2) 0 + 1 ∧
      agetD (finish_match s cid sc).1.partner_history
          (pkey m.team2.1 m.team2.2) 0 =
        agetD s.partner_history (pkey m.team2.1 m.team2.2) 0 + 1 ∧
      (∀ k, k ≠ pkey m.team1.1 m.team1.2 → k ≠ pkey m.team2.1 m.team2.2 →
        agetD (finish_match s cid sc).1.partner_history k 0 =
          agetD s.partner_history k 0) ∧
      agetD (finish_match s cid sc).1.opponent_history
          (pkey m.team1.1 m.team2.1) 0 =
        agetD s.opponent_history (pkey m.team1.1 m.team2.1) 0 + 1 ∧
      agetD (finish_match s cid sc).1.opponent_history
          (pkey m.team1.1 m.team2.2) 0 =
        agetD s.opponent_history (pkey m.team1.1 m.team2.2) 0 + 1 ∧
      agetD (finish_match s cid sc).1.opponent_history
          (pkey m.team1.2 m.team2.1) 0 =
        agetD s.opponent_history (pkey m.team1.2 m.team2.1) 0 + 1 ∧
      agetD (finish_match s cid sc).1.opponent_history
          (pkey m.team1.2 m.team2.2) 0 =
        agetD s.opponent_history (pkey m.team1.2 m.team2.2) 0 + 1 ∧
      (∀ p ∈ m.players, p ∉ (finish_match s cid sc).1.busy_players) ∧
      (∀ p : String, p ∉ m.players →
        ((p ∈ (finish_match s cid sc).1.busy_players) ↔ p ∈ s.busy_players)) ∧
      (finish_match s cid sc).1.play_counts = s.play_counts ∧
      (finish_match s cid sc).1.consecutive_rests = s.consecutive_rests ∧
      aget (finish_match s cid sc).1.courts_status cid = some none ∧
      (∀ c : Nat, c ≠ cid → aget (finish_match s cid sc).1.courts_status c =
        aget s.courts_status c) ∧
      finish_match (finish_match s cid sc).1 cid sc =
        ((finish_match s cid sc).1, false)) := by
  refine ⟨fun h => finish_match_inactive s cid sc h, ?_⟩
  intro m hm hply hnd
  have hnd4 : ([m.team1.1, m.team1.2, m.team2.1, m.team2.2] : List String).Nodup :=
    hply.nodup_iff.mp hnd
  have hd : ¬ m.team1.1 = m.team1.2 ∧ ¬ m.team1.1 = m.team2.1 ∧
      ¬ m.team1.1 = m.team2.2 ∧ ¬ m.team1.2 = m.team2.1 ∧
      ¬ m.team1.2 = m.team2.2 ∧ ¬ m.team2.1 = m.team2.2 := by
    simp [List.nodup_cons] at hnd4
    tauto
  obtain ⟨h12, h13, h14, h23, h24, h34⟩ := hd
  have hk12 : pkey m.team1.1 m.team1.2 ≠ pkey m.team2.1 m.team2.2 := by
    apply pkey_ne
    rintro (⟨h, -⟩ | ⟨h, -⟩)
    · exact h13 h
    · exact h14 h
  have o12 : pkey m.team1.1 m.team2.1 ≠ pkey m.team1.1 m.team2.2 := by
    apply pkey_ne
    rintro (⟨-, h⟩ | ⟨h, -⟩)
    · exact h34 h
    · exact h14 h
  have o13 : pkey m.team1.1 m.team2.1 ≠ pkey m.team1.2 m.team2.1 := by
    apply pkey_ne
    rintro (⟨h, -⟩ | ⟨h, -⟩)
    · exact h12 h
    · exact h13 h
  have o14 : pkey m.team1.1 m.team2.1 ≠ pkey m.team1.2 m.team2.2 := by
    apply pkey_ne
    rintro (⟨h, -⟩ | ⟨h, -⟩)
    · exact h12 h
    · exact h14 h
  have o23 : pkey m.team1.1 m.team2.2 ≠ pkey m.team1.2 m.team2.1 := by
    apply pkey_ne
    rintro (⟨h, -⟩ | ⟨h, -⟩)
    · exact h12 h
    · exact h13 h
  have o24 : pkey m.team1.1 m.team2.2 ≠ pkey m.team1.2 m.team2.2 := by
    apply pkey_ne
    rintro (⟨h, -⟩ | ⟨h, -⟩)
    · exact h12 h
    · exact h14 h
  have o34 : pkey m.team1.2 m.team2.1 ≠ pkey m.team1.2 m.team2.2 := by
    apply pkey_ne
    rintro (⟨-, h⟩ | ⟨h, -⟩)
    · exact h34 h
    · exact h24 h
  rw [finish_match_active s cid sc m hm]
  refine ⟨rfl, rfl, ?_, ?_, ?_, ?_, ?_, ?_, ?_, ?_, ?_, rfl, rfl, ?_, ?_, ?_⟩
  · show agetD (aincr (aincr s.partner_history (pkey m.team1.1 m.team1.2))
        (pkey m.team2.1 m.team2.2)) (pkey m.team1.1 m.team1.2) 0 = _
    rw [agetD_aincr, agetD_aincr]
    simp [hk12]
  · show agetD (aincr (aincr s.partner_history (pkey m.team1.1 m.team1.2))
        (pkey m.team2.1 m.team2.2)) (pkey m.team2.1 m.team2.2) 0 = _
    rw [agetD_aincr, agetD_aincr]
    simp [hk12.symm]
  · intro k hk1 hk2
    show agetD (aincr (aincr s.partner_history (pkey m.team1.1 m.team1.2))
        (pkey m.team2.1 m.team2.2)) k 0 = _
    rw [agetD_aincr, agetD_aincr]
    simp [hk1, hk2]
  · show agetD (aincr (aincr (aincr (aincr s.opponent_history
        (pkey m.team1.1 m.team2.1)) (pkey m.team1.1 m.team2.2))
        (pkey m.team1.2 m.team2.1)) (pkey m.team1.2 m.team2.2))
        (pkey m.team1.1 m.team2.1) 0 = _
    rw [agetD_aincr, agetD_aincr, agetD_aincr, agetD_aincr]
    simp [o12, o13, o14]
  · show agetD (aincr (aincr (aincr (aincr s.opponent_history
        (pkey m.team1.1 m.team2.1)) (pkey m.team1.1 m.team2.2))
        (pkey m.team1.2 m.team2.1)) (pkey m.team1.2 m.team2.2))
        (pkey m.team1.1 m.team2.2) 0 = _
    rw [agetD_aincr, agetD_aincr, agetD_aincr, agetD_aincr]
    simp [o12.symm, o23, o24]
  · show agetD (aincr (aincr (aincr (aincr s.opponent_history
        (pkey m.team1.1 m.team2.1)) (pkey m.team1.1 m.team2.2))
        (pkey m.team1.2 m.team2.1)) (pkey m.team1.2 m.team2.2))
        (pkey m.team1.2 m.team2.1) 0 = _
    rw [agetD_aincr, agetD_aincr, agetD_aincr, agetD_aincr]
    simp [o13.symm, o23.symm, o34]
  · show agetD (aincr (aincr (aincr (aincr s.opponent_history
        (pkey m.team1.1 m.team2.1)) (pkey m.team1.1 m.team2.2))
        (pkey m.team1.2 m.team2.1)) (pkey m.team1.2 m.team2.2))
        (pkey m.team1.2 m.team2.2) 0 = _
    rw [agetD_aincr, agetD_aincr, agetD_aincr, agetD_aincr]
    simp [o14.symm, o24.symm, o34.symm]
  · intro p hp hmemF
    have hf := List.mem_filter.mp hmemF
    have : p ∉ m.players := by simpa using hf.2
    exact this hp
  · intro p hnp
    constructor
    · intro hmemF
      exact (List.mem_filter.mp hmemF).1
    · intro hb
      exact List.mem_filter.mpr ⟨hb, by simpa using hnp⟩
  · exact aget_aset_self s.courts_status cid none
  · intro c hc
    exact aget_aset_ne s.courts_status cid c none hc
  · exact finish_match_inactive _ cid sc
      (court_empty_true_of_eq _ cid (aget_aset_self s.courts_status cid none))

theorem claim4_finish_witness :
    aget demoSecondSplit.courts_status 1 =
      some (some ⟨("a", "c"), ("b", "d"), ["a", "b", "c", "d"]⟩) ∧
    (finish_match demoSecondSplit 1 "21:15").2 = true ∧
    (finish_match demoSecondSplit 1 "21:15").1.match_history =
      demoSecondSplit.match_history ++
        [⟨"a" ++ "&" ++ "c", "b" ++ "&" ++ "d",
          if "21:15" = "" then "無紀錄" else "21:15"⟩] ∧
    agetD (finish_match demoSecondSplit 1 "21:15").1.partner_history
        (pkey "a" "c") 0 =
      agetD demoSecondSplit.partner_history (pkey "a" "c") 0 + 1 ∧
    agetD (finish_match demoSecondSplit 1 "21:15").1.opponent_history
        (pkey "a" "b") 0 =
      agetD demoSecondSplit.opponent_history (pkey "a" "b") 0 + 1 ∧
    "a" ∉ (finish_match demoSecondSplit 1 "21:15").1.busy_players ∧
    (finish_match demoSecondSplit 1 "21:15").1.play_counts =
      demoSecondSplit.play_counts ∧
    aget (finish_match demoSecondSplit 1 "21:15").1.courts_status 1 = some none ∧
    finish_match (finish_match demoSecondSplit 1 "21:15").1 1 "21:15" =
      ((finish_match demoSecondSplit 1 "21:15").1, false) := by
  have h := (claim4_finish demoSecondSplit 1 "21:15").2
    ⟨("a", "c"), ("b", "d"), ["a", "b", "c", "d"]⟩ (by decide) (by decide) (by decide)
  exact ⟨by decide, h.1, h.2.1, h.2.2.1, h.2.2.2.2.2.1,
    h.2.2.2.2.2.2.2.2.2.1 "a" (by decide), h.2.2.2.2.2.2.2.2.2.2.2.1,
    h.2.2.2.2.2.2.2.2.2.2.2.2.2.1, h.2.2.2.2.2.2.2.2.2.2.2.2.2.2.2⟩

end Badminton
